import Mathlib

/-!
Verification of the milestone-generation pipeline in
`mg-server/GenerateMilestones.py`.

The Python source is shallowly embedded: strings are Lean `String`s
manipulated through `List Char`, Python dictionaries are association
lists, the two module-level caches plus the two gateway call counters
form an explicit state record `St`, and the external text-generation
gateway (`ollama.chat`) is an oracle `Nat → String` giving the reply
text of the n-th gateway call of the corresponding stage.  The
thread-pool fan-out of `run_model` is modelled by an explicit completion
schedule (a permutation of the task indices) that fixes the order in
which the tasks' effects hit the shared state, while results are
collected positionally, which is the semantics of `executor.map`.
-/

/-! ## Python string primitives -/

/-- Characters stripped by Python `str.strip()` (the ASCII whitespace
subset, which is all that can occur here). -/
def isPySpace (c : Char) : Bool :=
  c = ' ' || c = '\t' || c = '\n' || c = '\r' || c = '\x0b' || c = '\x0c'

/-- Python `s.strip()`. -/
def pyStrip (s : String) : String :=
  String.mk (((s.data.dropWhile isPySpace).reverse.dropWhile isPySpace).reverse)

/-- Python `s.lower()` (ASCII case folding, which is all that matters
for the `"milestones:"` label match). -/
def pyLower (s : String) : String :=
  String.mk (s.data.map Char.toLower)

/-- Python `s.startswith(p)`. -/
def startsWithPy (s p : String) : Bool :=
  p.data.isPrefixOf s.data

/-- Python `s.split(sep)` for a single-character separator: keeps empty
pieces, and `"".split(sep) == [""]`. -/
def splitCharAux (sep : Char) : List Char → List Char → List String
  | [], acc => [String.mk acc.reverse]
  | c :: rest, acc =>
    if c = sep then String.mk acc.reverse :: splitCharAux sep rest []
    else splitCharAux sep rest (c :: acc)

/-- Python `s.split(sep)` for a single-character separator. -/
def splitChar (sep : Char) (s : String) : List String :=
  splitCharAux sep s.data []

/-- Python `s.splitlines()`: line boundaries are `\n`, `\r`, `\r\n`,
`\v`, `\f`; a trailing boundary produces no trailing empty line. -/
def splitlinesAux : List Char → List Char → List String
  | [], acc => if acc.isEmpty then [] else [String.mk acc.reverse]
  | '\r' :: '\n' :: rest, acc => String.mk acc.reverse :: splitlinesAux rest []
  | c :: rest, acc =>
    if c = '\n' || c = '\r' || c = '\x0b' || c = '\x0c' then
      String.mk acc.reverse :: splitlinesAux rest []
    else splitlinesAux rest (c :: acc)

/-- Python `s.splitlines()`. -/
def splitlinesPy (s : String) : List String :=
  splitlinesAux s.data []

/-- Python `line.split(":", 1)[0]`: the part of `line` before its first
colon (the whole string if there is no colon). -/
def beforeFirstColon (s : String) : String :=
  String.mk (s.data.takeWhile (fun c => c != ':'))

/-- Python `line.split(":", 1)[1]`: everything after the first colon
(empty if there is no colon; every use in the source is guarded by a
check that a colon is present). -/
def afterFirstColon (s : String) : String :=
  String.mk ((s.data.dropWhile (fun c => c != ':')).drop 1)

/-! ## MilestoneListParser (GenerateMilestones.py lines 78-83) -/

/-- Line 82: `[m.strip() for m in milestones_str.split(",") if m.strip()]`
applied to the text after the first colon of a matched line. -/
def listPieces (line : String) : List String :=
  ((splitChar ',' (afterFirstColon line)).map pyStrip).filter (fun m => m != "")

/-- Lines 79-83: scan the lines; the first line whose lowercasing starts
with `"milestones:"` is split and the loop breaks; if no line matches,
`milestones` keeps its initial value `[]`. -/
def parse_milestones_lines : List String → List String
  | [] => []
  | line :: rest =>
    if startsWithPy (pyLower line) "milestones:" then listPieces line
    else parse_milestones_lines rest

/-- Lines 78-83: the milestone-list extraction from one reply text. -/
def parse_milestones (generated_text : String) : List String :=
  parse_milestones_lines (splitlinesPy generated_text)

/-! ## is_balanced and the normalizer (lines 175-176 and 201-209) -/

/-- Lines 175-176: `s.count("(") == s.count(")")`. -/
def is_balanced (s : String) : Bool :=
  s.data.count '(' == s.data.count ')'

/-- The inner `while` of lines 203-209: keep absorbing the next entry
into `combined` (joined by `", "`) while `combined` is unbalanced and
entries remain, then emit `combined` and restart from the next entry. -/
def fixLoop (combined : String) : List String → List String
  | [] => [combined]
  | y :: rest =>
    if is_balanced combined then combined :: fixLoop y rest
    else fixLoop (combined ++ ", " ++ y) rest

/-- Lines 201-209: the milestone-name repair pass of `run_model`. -/
def fix_milestones : List String → List String
  | [] => []
  | x :: rest => fixLoop x rest

/-- Joining a name list back with `", "`; used to state that the repair
pass only re-groups entries without touching their text. -/
def joinComma : List String → String
  | [] => ""
  | [x] => x
  | x :: y :: rest => x ++ ", " ++ joinComma (y :: rest)

/-! ## Fallback list (lines 91-101) -/

/-- Lines 91-101: the hardcoded default milestone list used after the
retries are exhausted. -/
def default_milestones : List String :=
  [ "Product Backlog Creation",
    "Sprint Planning",
    "Design & Prototyping",
    "Sprint Development Cycles",
    "Continuous Testing & QA",
    "Sprint Reviews & Retrospectives",
    "Final Integration & UAT (User Acceptance Testing)",
    "Release & Deployment",
    "Post-Release Support & Maintenance" ]

/-! ## Dictionaries and the shared mutable state

Python `dict`s with string keys and string values are association
lists; `dset` is item assignment `d[k] = v` (replace the binding in
place, else append), `alookup` is both `d.get`/`d[k]` and the
membership test `k in d`.  The module-level caches
`project_milestones_cache` and `milestone_details_cache` (lines 26-27)
live in the state record `St`, together with one gateway-call counter
per stage so that an oracle `Nat → String` can supply the reply text of
each successive `ollama.chat` call of that stage. -/

/-- Lookup in an association list (first binding wins, as in a Python
dict, which never holds a key twice). -/
def alookup {α β : Type} [DecidableEq α] : List (α × β) → α → Option β
  | [], _ => none
  | (k1, v) :: rest, k => if k1 = k then some v else alookup rest k

/-- Python `d[k] = v`: replace the first binding of `k` in place,
append a new binding if `k` is absent. -/
def dset {α β : Type} [DecidableEq α] : List (α × β) → α → β → List (α × β)
  | [], k, v => [(k, v)]
  | (k1, v1) :: rest, k, v =>
    if k1 = k then (k, v) :: rest else (k1, v1) :: dset rest k v

/-- A field-keyed record, as built by the detail stage. -/
abbrev Dict := List (String × String)

/-- Python `d.update(e)`: assign every binding of `e` into `d`, in
order. -/
def updateAll (d e : Dict) : Dict :=
  e.foldl (fun acc p => dset acc p.1 p.2) d

/-- The two module-level caches (lines 26-27) and one call counter per
gateway stage.  Cache keys are the full input tuples built at lines 52
and 112 (the `dataset_preview` context blob is the last component). -/
structure St where
  listCache : List ((String × String × String × String) × List String)
  listCalls : Nat
  detailCache : List ((String × String × String × String) × Dict)
  detailCalls : Nat
deriving DecidableEq

/-! ## generate_project_milestones (lines 49-104)

`gw n` is the reply text of the n-th list-stage `ollama.chat` call;
`dp` is `dataset_preview`.  Line 76 strips the reply before parsing.
The recursion is the source's retry recursion (line 88), bounded by the
`attempts < 3` guard of line 86. -/

def generate_project_milestones (gw : Nat → String) (dp cd pn pd : String)
    (st : St) (attempts : Nat) : List String × St :=
  match alookup st.listCache (cd, pn, pd, dp) with
  | some cached => (cached, st)
  | none =>
    if parse_milestones (pyStrip (gw st.listCalls)) = [] then
      if h : attempts < 3 then
        generate_project_milestones gw dp cd pn pd
          ⟨st.listCache, st.listCalls + 1, st.detailCache, st.detailCalls⟩ (attempts + 1)
      else
        (default_milestones,
          ⟨st.listCache ++ [((cd, pn, pd, dp), default_milestones)],
            st.listCalls + 1, st.detailCache, st.detailCalls⟩)
    else
      (parse_milestones (pyStrip (gw st.listCalls)),
        ⟨st.listCache ++ [((cd, pn, pd, dp), parse_milestones (pyStrip (gw st.listCalls)))],
          st.listCalls + 1, st.detailCache, st.detailCalls⟩)
termination_by 3 - attempts
decreasing_by omega

/-! ## generate_milestone_details_ollama (lines 109-170) -/

/-- Lines 152-154. -/
def expected_keys : List String :=
  ["Milestone", "Task", "Time Estimate (Days)", "KPI", "Risk Factors", "Risk Indicator"]

/-- Lines 156-162: one step of the line scan.  A line is considered
only if it contains a colon; the trimmed key before the first colon
must match one of the six expected labels exactly, otherwise the line
is discarded (with only a warning printed). -/
def parse_detail_line (md : Dict) (line : String) : Dict :=
  if line.data.contains ':' then
    if pyStrip (beforeFirstColon line) ∈ expected_keys then
      dset md (pyStrip (beforeFirstColon line)) (pyStrip (afterFirstColon line))
    else md
  else md

/-- Lines 151-162: scan `generated_text.split("\n")` into a record. -/
def parse_details (generated_text : String) : Dict :=
  (splitChar '\n' generated_text).foldl parse_detail_line []

/-- Lines 164-167: both the missing/falsy branch and the present branch
assign the input milestone name, so the field is forced
unconditionally (the `else` arm carries the source comment
`# enforce the milestone name`). -/
def force_milestone (md : Dict) (milestone : String) : Dict :=
  match alookup md "Milestone" with
  | none => dset md "Milestone" milestone
  | some v =>
    if v = "" then dset md "Milestone" milestone
    else dset md "Milestone" milestone

/-- Lines 109-170: detail generation with its cache (key from line 112)
and reply parse; `gwD n` is the reply of the n-th detail-stage
`ollama.chat` call. -/
def generate_milestone_details_ollama (gwD : Nat → String) (dp pn pd milestone : String)
    (st : St) : Dict × St :=
  match alookup st.detailCache (pn, pd, milestone, dp) with
  | some cached => (cached, st)
  | none =>
    (force_milestone (parse_details (pyStrip (gwD st.detailCalls))) milestone,
      ⟨st.listCache, st.listCalls,
        st.detailCache ++ [((pn, pd, milestone, dp),
          force_milestone (parse_details (pyStrip (gwD st.detailCalls))) milestone)],
        st.detailCalls + 1⟩)

/-! ## process_milestone (lines 181-190) and run_model (lines 195-220) -/

/-- Lines 181-190: fetch the details, re-force the `Milestone` field
(line 184), and merge into a row that starts with the project fields.
(In Python line 184 mutates the cached dict in place; the value written
is the one already stored under that cache key, so value semantics
agree on all states the program can reach.) -/
def process_milestone (gwD : Nat → String) (dp : String) (milestone pn pd : String)
    (st : St) : Dict × St :=
  (updateAll (dset (dset [] "Project Name" pn) "Project Description" pd)
      (dset (generate_milestone_details_ollama gwD dp pn pd milestone st).1
        "Milestone" milestone),
    (generate_milestone_details_ollama gwD dp pn pd milestone st).2)

/-- The thread pool of lines 213-217: the tasks' side effects on the
shared state happen in the completion order given by `order`, one
`(index, result)` pair per executed task. -/
def execInOrder (f : Nat → St → Dict × St) : List Nat → St → List (Nat × Dict) × St
  | [], st => ([], st)
  | i :: rest, st =>
    ((i, (f i st).1) :: (execInOrder f rest (f i st).2).1,
      (execInOrder f rest (f i st).2).2)

/-- Positional collection of a task result, as `executor.map` does:
the output slot `i` takes the result tagged `i` regardless of where it
sits in completion order. -/
def lookupIdx : List (Nat × Dict) → Nat → Option Dict
  | [], _ => none
  | (j, d) :: rest, i => if j = i then some d else lookupIdx rest i

/-- Lines 195-220: generate the names, repair them, then fan the detail
tasks out over the pool (`order` is the completion schedule) and return
the rows in input order, as `executor.map` guarantees. -/
def run_model (gwL gwD : Nat → String) (dp cd pn pd : String) (order : List Nat)
    (st : St) : List Dict × St :=
  let gen := generate_project_milestones gwL dp cd pn pd st 0
  let fixed := fix_milestones gen.1
  let exec := execInOrder
    (fun i s => process_milestone gwD dp (fixed.getD i "") pn pd s) order gen.2
  ((List.range fixed.length).map (fun i => (lookupIdx exec.1 i).getD []), exec.2)

/-! ## Concrete reply oracles used in the closed-instance theorems -/

/-- Replies that parse empty on the first three list-stage calls and to
`["a"]` on the fourth. -/
def gwEmptyThrice (n : Nat) : String := if n < 3 then "" else "Milestones: a"

/-- A reply that parses empty on the first list-stage call only. -/
def gwEmptyOnce (n : Nat) : String := if n = 0 then "" else "Milestones: a"

/-- A reply whose parse has a duplicate name and an unbalanced name. -/
def gwDup (_n : Nat) : String := "Milestones: a, a, (b"

/-- A reply that parses to the two names `["b", "a"]`. -/
def gwBA (_n : Nat) : String := "Milestones: b, a"

/-- A detail-stage reply with a single Task field. -/
def gwTask (_n : Nat) : String := "Task: t"

/-! ## Single-step unfolding lemmas for the retry recursion

The retry recursion of `generate_project_milestones` is compiled by
well-founded recursion, so concrete runs are evaluated by rewriting
with one of the following four branch lemmas per gateway call. -/

theorem gen_step_hit (gw : Nat → String) (dp cd pn pd : String) (st : St) (a : Nat)
    (ms : List String) (h : alookup st.listCache (cd, pn, pd, dp) = some ms) :
    generate_project_milestones gw dp cd pn pd st a = (ms, st) := by
  rw [generate_project_milestones.eq_def, h]

theorem gen_step_empty (gw : Nat → String) (dp cd pn pd : String) (st : St) (a : Nat)
    (h1 : alookup st.listCache (cd, pn, pd, dp) = none)
    (h2 : parse_milestones (pyStrip (gw st.listCalls)) = [])
    (h3 : a < 3) :
    generate_project_milestones gw dp cd pn pd st a =
      generate_project_milestones gw dp cd pn pd
        ⟨st.listCache, st.listCalls + 1, st.detailCache, st.detailCalls⟩ (a + 1) := by
  rw [generate_project_milestones.eq_def, h1]
  simp only [if_pos h2, dif_pos h3]

theorem gen_step_fallback (gw : Nat → String) (dp cd pn pd : String) (st : St) (a : Nat)
    (h1 : alookup st.listCache (cd, pn, pd, dp) = none)
    (h2 : parse_milestones (pyStrip (gw st.listCalls)) = [])
    (h3 : ¬ a < 3) :
    generate_project_milestones gw dp cd pn pd st a =
      (default_milestones,
        ⟨st.listCache ++ [((cd, pn, pd, dp), default_milestones)],
          st.listCalls + 1, st.detailCache, st.detailCalls⟩) := by
  rw [generate_project_milestones.eq_def, h1]
  simp only [if_pos h2, dif_neg h3]

theorem gen_step_success (gw : Nat → String) (dp cd pn pd : String) (st : St) (a : Nat)
    (h1 : alookup st.listCache (cd, pn, pd, dp) = none)
    (h2 : ¬ parse_milestones (pyStrip (gw st.listCalls)) = []) :
    generate_project_milestones gw dp cd pn pd st a =
      (parse_milestones (pyStrip (gw st.listCalls)),
        ⟨st.listCache ++ [((cd, pn, pd, dp), parse_milestones (pyStrip (gw st.listCalls)))],
          st.listCalls + 1, st.detailCache, st.detailCalls⟩) := by
  rw [generate_project_milestones.eq_def, h1]
  simp only [if_neg h2]

/-- Master description of one cache-missing run of
`generate_project_milestones`, by induction on the remaining retry
budget `k`: the result is stored under the input tuple, between 1 and
`1 + (3 - attempts)` gateway calls are made, the detail state is
untouched, the result is non-empty and is either a successful parse of
one of the consumed replies or the hardcoded fallback, and if every
reply in the call window parses empty the result is the fallback. -/
theorem gen_helper (gw : Nat → String) (dp cd pn pd : String) :
    ∀ (k a : Nat) (st : St) (r : List String) (s2 : St), 3 - a < k →
      alookup st.listCache (cd, pn, pd, dp) = none →
      generate_project_milestones gw dp cd pn pd st a = (r, s2) →
      s2.listCache = st.listCache ++ [((cd, pn, pd, dp), r)] ∧
      st.listCalls + 1 ≤ s2.listCalls ∧
      s2.listCalls ≤ st.listCalls + 1 + (3 - a) ∧
      s2.detailCache = st.detailCache ∧
      s2.detailCalls = st.detailCalls ∧
      r ≠ [] ∧
      (r = default_milestones ∨
        ∃ i, st.listCalls ≤ i ∧ i < s2.listCalls ∧
          r = parse_milestones (pyStrip (gw i))) ∧
      ((∀ i, st.listCalls ≤ i → i < st.listCalls + 1 + (3 - a) →
          parse_milestones (pyStrip (gw i)) = []) → r = default_milestones) := by
  intro k
  induction k with
  | zero => intro a st r s2 hk; exact (Nat.not_lt_zero _ hk).elim
  | succ k ih =>
    intro a st r s2 hk hfresh heq
    by_cases hemp : parse_milestones (pyStrip (gw st.listCalls)) = []
    · by_cases ha : a < 3
      · rw [gen_step_empty gw dp cd pn pd st a hfresh hemp ha] at heq
        obtain ⟨hc, hl1, hl2, hdc, hdl, hne, hor, hfb⟩ :=
          ih (a + 1) ⟨st.listCache, st.listCalls + 1, st.detailCache, st.detailCalls⟩
            r s2 (by omega) hfresh heq
        have hl1' : st.listCalls + 1 + 1 ≤ s2.listCalls := hl1
        have hl2' : s2.listCalls ≤ st.listCalls + 1 + 1 + (3 - (a + 1)) := hl2
        refine ⟨hc, by omega, by omega, hdc, hdl, hne, ?_, ?_⟩
        · rcases hor with h | ⟨i, hi1, hi2, hi3⟩
          · exact Or.inl h
          · have hi1' : st.listCalls + 1 ≤ i := hi1
            exact Or.inr ⟨i, by omega, hi2, hi3⟩
        · intro hpre
          refine hfb (fun i h1 h2 => ?_)
          have h1' : st.listCalls + 1 ≤ i := h1
          have h2' : i < st.listCalls + 1 + 1 + (3 - (a + 1)) := h2
          exact hpre i (by omega) (by omega)
      · rw [gen_step_fallback gw dp cd pn pd st a hfresh hemp ha] at heq
        obtain ⟨rfl, rfl⟩ := Prod.mk.inj heq
        refine ⟨rfl, ?_, ?_, rfl, rfl, by decide, Or.inl rfl, fun _ => rfl⟩
        · show st.listCalls + 1 ≤ st.listCalls + 1
          omega
        · show st.listCalls + 1 ≤ st.listCalls + 1 + (3 - a)
          omega
    · rw [gen_step_success gw dp cd pn pd st a hfresh hemp] at heq
      obtain ⟨rfl, rfl⟩ := Prod.mk.inj heq
      refine ⟨rfl, ?_, ?_, rfl, rfl, hemp, ?_, ?_⟩
      · show st.listCalls + 1 ≤ st.listCalls + 1
        omega
      · show st.listCalls + 1 ≤ st.listCalls + 1 + (3 - a)
        omega
      · exact Or.inr ⟨st.listCalls, le_refl _,
          by show st.listCalls < st.listCalls + 1; omega, rfl⟩
      · intro hpre
        exact absurd (hpre st.listCalls (le_refl _) (by omega)) hemp

/-- Whatever branch is taken (cache hit included), the list stage never
touches the detail cache or the detail call counter. -/
theorem gen_detail_unchanged (gw : Nat → String) (dp cd pn pd : String) (a : Nat) (st : St) :
    (generate_project_milestones gw dp cd pn pd st a).2.detailCache = st.detailCache ∧
    (generate_project_milestones gw dp cd pn pd st a).2.detailCalls = st.detailCalls := by
  cases hc : alookup st.listCache (cd, pn, pd, dp) with
  | some ms => rw [gen_step_hit gw dp cd pn pd st a ms hc]; exact ⟨rfl, rfl⟩
  | none =>
    obtain ⟨-, -, -, h4, h5, -⟩ :=
      gen_helper gw dp cd pn pd 4 a st _ _ (by omega) hc rfl
    exact ⟨h4, h5⟩

/-! ## Association-list lemmas -/

theorem alookup_dset_self {α β : Type} [DecidableEq α] (d : List (α × β)) (k : α) (v : β) :
    alookup (dset d k v) k = some v := by
  induction d with
  | nil => simp [dset, alookup]
  | cons p rest ih =>
    by_cases h : p.1 = k
    · simp [dset, h, alookup]
    · simp [dset, h, alookup, ih]

theorem alookup_dset_ne {α β : Type} [DecidableEq α] (d : List (α × β)) (k k2 : α) (v : β)
    (hne : k ≠ k2) : alookup (dset d k v) k2 = alookup d k2 := by
  induction d with
  | nil => simp [dset, alookup, hne]
  | cons p rest ih =>
    obtain ⟨a, b⟩ := p
    by_cases h : a = k
    · subst h
      simp [dset, alookup, hne]
    · simp only [dset, if_neg h, alookup]
      by_cases h2 : a = k2 <;> simp [h2, ih]

theorem mem_dset {α β : Type} [DecidableEq α] (d : List (α × β)) (k : α) (v : β)
    (p : α × β) (hp : p ∈ dset d k v) : p = (k, v) ∨ p ∈ d := by
  induction d with
  | nil => simpa [dset] using hp
  | cons q rest ih =>
    by_cases h : q.1 = k
    · rw [dset, if_pos h] at hp
      rcases List.mem_cons.1 hp with h1 | h1
      · exact Or.inl h1
      · exact Or.inr (List.mem_cons_of_mem _ h1)
    · rw [dset, if_neg h] at hp
      rcases List.mem_cons.1 hp with h1 | h1
      · exact Or.inr (h1 ▸ List.mem_cons_self _ _)
      · rcases ih h1 with h2 | h2
        · exact Or.inl h2
        · exact Or.inr (List.mem_cons_of_mem _ h2)

theorem self_mem_dset {α β : Type} [DecidableEq α] (d : List (α × β)) (k : α) (v : β) :
    (k, v) ∈ dset d k v := by
  induction d with
  | nil => simp [dset]
  | cons q rest ih =>
    by_cases h : q.1 = k
    · simp [dset, h]
    · rw [dset, if_neg h]
      exact List.mem_cons_of_mem _ ih

theorem alookup_append_fresh {α β : Type} [DecidableEq α] (d : List (α × β)) (k : α) (v : β)
    (h : alookup d k = none) : alookup (d ++ [(k, v)]) k = some v := by
  induction d with
  | nil => simp [alookup]
  | cons p rest ih =>
    by_cases h1 : p.1 = k
    · rw [alookup, if_pos h1] at h
      exact absurd h (by simp)
    · rw [alookup, if_neg h1] at h
      simpa [alookup, h1] using ih h

/-- A dictionary is well-formed when no key occurs twice; every Python
dict automatically satisfies this. -/
def WFDict {α β : Type} (d : List (α × β)) : Prop :=
  (d.map Prod.fst).Nodup

theorem mem_keys_dset {α β : Type} [DecidableEq α] (d : List (α × β)) (k : α) (v : β)
    (x : α) (hx : x ∈ (dset d k v).map Prod.fst) : x = k ∨ x ∈ d.map Prod.fst := by
  rcases List.mem_map.1 hx with ⟨p, hp, hpx⟩
  rcases mem_dset d k v p hp with h | h
  · exact Or.inl (by rw [← hpx, h])
  · exact Or.inr (hpx ▸ List.mem_map_of_mem Prod.fst h)

theorem WFDict_dset {α β : Type} [DecidableEq α] (d : List (α × β)) (k : α) (v : β)
    (hd : WFDict d) : WFDict (dset d k v) := by
  induction d with
  | nil => simp [dset, WFDict]
  | cons q rest ih =>
    rw [WFDict, List.map_cons, List.nodup_cons] at hd
    by_cases h : q.1 = k
    · rw [dset, if_pos h]
      rw [WFDict, List.map_cons, List.nodup_cons]
      exact ⟨h ▸ hd.1, hd.2⟩
    · rw [dset, if_neg h]
      rw [WFDict, List.map_cons, List.nodup_cons]
      refine ⟨fun hmem => ?_, ih hd.2⟩
      rcases mem_keys_dset rest k v q.1 hmem with h1 | h1
      · exact h h1
      · exact hd.1 h1

/-- In a well-formed dictionary, after `d[k] = v` every binding of `k`
carries the value `v`. -/
theorem dset_key_val_unique {α β : Type} [DecidableEq α] (d : List (α × β)) (k : α) (v : β)
    (hd : WFDict d) (p : α × β) (hp : p ∈ dset d k v) (hk : p.1 = k) : p.2 = v := by
  induction d with
  | nil =>
    rw [dset] at hp
    simp only [List.mem_singleton] at hp
    rw [hp]
  | cons q rest ih =>
    rw [WFDict, List.map_cons, List.nodup_cons] at hd
    by_cases h : q.1 = k
    · rw [dset, if_pos h] at hp
      rcases List.mem_cons.1 hp with h1 | h1
      · rw [h1]
      · exact absurd (hk ▸ List.mem_map_of_mem Prod.fst h1) (h ▸ hd.1)
    · rw [dset, if_neg h] at hp
      rcases List.mem_cons.1 hp with h1 | h1
      · exact absurd (by rw [h1] at hk; exact hk) h
      · exact ih hd.2 h1

/-- `d.update(e)` leaves a key alone when `e` never binds it. -/
theorem alookup_updateAll_not_bound (e : Dict) : ∀ (d : Dict) (k : String),
    (∀ p ∈ e, p.1 ≠ k) → alookup (updateAll d e) k = alookup d k := by
  induction e with
  | nil => intro d k _; rfl
  | cons p rest ih =>
    intro d k hk
    rw [updateAll, List.foldl_cons]
    rw [show List.foldl (fun acc q => dset acc q.1 q.2) (dset d p.1 p.2) rest
        = updateAll (dset d p.1 p.2) rest from rfl]
    rw [ih (dset d p.1 p.2) k (fun q hq => hk q (List.mem_cons_of_mem _ hq))]
    exact alookup_dset_ne d p.1 k p.2 (hk p (List.mem_cons_self _ _))

/-- `d.update(e)` binds `k` to `v` when `e` binds `k` somewhere and
every binding of `k` in `e` carries `v`. -/
theorem alookup_updateAll_bound (e : Dict) : ∀ (d : Dict) (k v : String),
    (∀ p ∈ e, p.1 = k → p.2 = v) → (∃ p ∈ e, p.1 = k) →
    alookup (updateAll d e) k = some v := by
  induction e with
  | nil => intro d k v _ hex; exact absurd hex (by simp)
  | cons p rest ih =>
    intro d k v hall hex
    rw [updateAll, List.foldl_cons]
    rw [show List.foldl (fun acc q => dset acc q.1 q.2) (dset d p.1 p.2) rest
        = updateAll (dset d p.1 p.2) rest from rfl]
    by_cases hrest : ∃ q ∈ rest, q.1 = k
    · exact ih (dset d p.1 p.2) k v (fun q hq => hall q (List.mem_cons_of_mem _ hq)) hrest
    · have hp1 : p.1 = k := by
        rcases hex with ⟨q, hq, hqk⟩
        rcases List.mem_cons.1 hq with h1 | h1
        · rw [← h1]; exact hqk
        · exact absurd ⟨q, h1, hqk⟩ hrest
      have hnone : ∀ q ∈ rest, q.1 ≠ k := by
        intro q hq hqk
        exact hrest ⟨q, hq, hqk⟩
      rw [alookup_updateAll_not_bound rest (dset d p.1 p.2) k hnone, hp1,
        hall p (List.mem_cons_self _ _) hp1]
      exact alookup_dset_self d k v

theorem alookup_mem {α β : Type} [DecidableEq α] (d : List (α × β)) (k : α) (v : β)
    (h : alookup d k = some v) : (k, v) ∈ d := by
  induction d with
  | nil => exact absurd h (by simp [alookup])
  | cons p rest ih =>
    obtain ⟨a, b⟩ := p
    rw [alookup] at h
    by_cases h1 : a = k
    · rw [if_pos h1] at h
      injection h with h2
      subst h1; subst h2
      exact List.mem_cons_self _ _
    · rw [if_neg h1] at h
      exact List.mem_cons_of_mem _ (ih h)

/-! ## Lemmas about the detail parser -/

theorem mem_parse_detail_line (md : Dict) (line : String) (p : String × String)
    (hp : p ∈ parse_detail_line md line) : p ∈ md ∨ p.1 ∈ expected_keys := by
  unfold parse_detail_line at hp
  by_cases h1 : line.data.contains ':' = true
  · rw [if_pos h1] at hp
    by_cases h2 : pyStrip (beforeFirstColon line) ∈ expected_keys
    · rw [if_pos h2] at hp
      rcases mem_dset md _ _ p hp with h | h
      · rw [h]; exact Or.inr h2
      · exact Or.inl h
    · rw [if_neg h2] at hp; exact Or.inl hp
  · rw [if_neg h1] at hp; exact Or.inl hp

theorem alookup_parse_detail_line (md : Dict) (line k : String) :
    alookup (parse_detail_line md line) k ≠ none ↔
      alookup md k ≠ none ∨ (line.data.contains ':' = true ∧
        pyStrip (beforeFirstColon line) = k ∧ k ∈ expected_keys) := by
  unfold parse_detail_line
  by_cases h1 : line.data.contains ':' = true
  · rw [if_pos h1]
    by_cases h2 : pyStrip (beforeFirstColon line) ∈ expected_keys
    · rw [if_pos h2]
      by_cases h3 : pyStrip (beforeFirstColon line) = k
      · rw [h3, alookup_dset_self]
        constructor
        · intro _
          exact Or.inr ⟨h1, rfl, h3 ▸ h2⟩
        · intro _
          simp
      · rw [alookup_dset_ne md _ k _ h3]
        constructor
        · exact Or.inl
        · rintro (h | ⟨-, h4, -⟩)
          · exact h
          · exact absurd h4 h3
    · rw [if_neg h2]
      constructor
      · exact Or.inl
      · rintro (h | ⟨-, h3, h4⟩)
        · exact h
        · exact absurd (h3 ▸ h4) h2
  · rw [if_neg h1]
    constructor
    · exact Or.inl
    · rintro (h | ⟨h2, -⟩)
      · exact h
      · exact absurd h2 h1

theorem WFDict_parse_detail_line (md : Dict) (line : String) (h : WFDict md) :
    WFDict (parse_detail_line md line) := by
  unfold parse_detail_line
  split
  · split
    · exact WFDict_dset _ _ _ h
    · exact h
  · exact h

theorem parse_fold_keys_sub (lines : List String) : ∀ (md : Dict) (p : String × String),
    p ∈ lines.foldl parse_detail_line md → p ∈ md ∨ p.1 ∈ expected_keys := by
  induction lines with
  | nil => intro md p hp; exact Or.inl hp
  | cons line rest ih =>
    intro md p hp
    rw [List.foldl_cons] at hp
    rcases ih (parse_detail_line md line) p hp with h | h
    · exact mem_parse_detail_line md line p h
    · exact Or.inr h

theorem parse_fold_lookup (lines : List String) : ∀ (md : Dict) (k : String),
    alookup (lines.foldl parse_detail_line md) k ≠ none ↔
      alookup md k ≠ none ∨ ∃ line ∈ lines, line.data.contains ':' = true ∧
        pyStrip (beforeFirstColon line) = k ∧ k ∈ expected_keys := by
  induction lines with
  | nil => intro md k; simp
  | cons line rest ih =>
    intro md k
    rw [List.foldl_cons, ih (parse_detail_line md line) k,
      alookup_parse_detail_line md line k]
    constructor
    · rintro ((h | h) | ⟨l, hl, hprops⟩)
      · exact Or.inl h
      · exact Or.inr ⟨line, List.mem_cons_self _ _, h⟩
      · exact Or.inr ⟨l, List.mem_cons_of_mem _ hl, hprops⟩
    · rintro (h | ⟨l, hl, hprops⟩)
      · exact Or.inl (Or.inl h)
      · rcases List.mem_cons.1 hl with rfl | hl2
        · exact Or.inl (Or.inr hprops)
        · exact Or.inr ⟨l, hl2, hprops⟩

theorem WFDict_parse_fold (lines : List String) : ∀ md : Dict, WFDict md →
    WFDict (lines.foldl parse_detail_line md) := by
  induction lines with
  | nil => intro md h; exact h
  | cons line rest ih =>
    intro md h
    rw [List.foldl_cons]
    exact ih _ (WFDict_parse_detail_line md line h)

theorem WFDict_parse_details (t : String) : WFDict (parse_details t) :=
  WFDict_parse_fold _ [] (by simp [WFDict])

/-- Both branches of lines 164-167 make the same assignment. -/
theorem force_milestone_eq (md : Dict) (m : String) :
    force_milestone md m = dset md "Milestone" m := by
  unfold force_milestone
  cases alookup md "Milestone" with
  | none => rfl
  | some v =>
    show (if v = "" then dset md "Milestone" m else dset md "Milestone" m)
      = dset md "Milestone" m
    split <;> rfl

theorem force_milestone_self (md : Dict) (m : String) :
    alookup (force_milestone md m) "Milestone" = some m := by
  rw [force_milestone_eq]
  exact alookup_dset_self md "Milestone" m

theorem force_milestone_ne (md : Dict) (m k : String) (hk : k ≠ "Milestone") :
    alookup (force_milestone md m) k = alookup md k := by
  rw [force_milestone_eq]
  exact alookup_dset_ne md "Milestone" k m (Ne.symm hk)

theorem WFDict_force_milestone (md : Dict) (m : String) (h : WFDict md) :
    WFDict (force_milestone md m) := by
  rw [force_milestone_eq]
  exact WFDict_dset md "Milestone" m h

/-! ## Lemmas about the list parser and the normalizer -/

theorem parse_milestones_lines_cons (line : String) (rest : List String) :
    parse_milestones_lines (line :: rest) =
      if startsWithPy (pyLower line) "milestones:" then listPieces line
      else parse_milestones_lines rest := rfl

theorem parse_lines_find (ls : List String) :
    (ls.find? (fun l => startsWithPy (pyLower l) "milestones:") = none →
      parse_milestones_lines ls = []) ∧
    (∀ line, ls.find? (fun l => startsWithPy (pyLower l) "milestones:") = some line →
      parse_milestones_lines ls = listPieces line) := by
  induction ls with
  | nil => exact ⟨fun _ => rfl, fun line h => by simp [List.find?] at h⟩
  | cons l rest ih =>
    by_cases h : startsWithPy (pyLower l) "milestones:"
    · refine ⟨fun hn => ?_, fun line hs => ?_⟩
      · simp only [List.find?, h] at hn
        exact absurd hn (by simp)
      · simp only [List.find?, h] at hs
        injection hs with hs
        rw [parse_milestones_lines_cons, if_pos h, hs]
    · have hf : startsWithPy (pyLower l) "milestones:" = false := by
        rw [← Bool.not_eq_true]; exact h
      refine ⟨fun hn => ?_, fun line hs => ?_⟩
      · simp only [List.find?, hf] at hn
        rw [parse_milestones_lines_cons, if_neg h]
        exact ih.1 hn
      · simp only [List.find?, hf] at hs
        rw [parse_milestones_lines_cons, if_neg h]
        exact ih.2 line hs

theorem listPieces_all_ne_empty (line s : String) (h : s ∈ listPieces line) : s ≠ "" := by
  unfold listPieces at h
  have := (List.mem_filter.1 h).2
  simpa using this

theorem parse_lines_all_ne_empty (ls : List String) (s : String)
    (h : s ∈ parse_milestones_lines ls) : s ≠ "" := by
  induction ls with
  | nil => exact absurd h (List.not_mem_nil s)
  | cons l rest ih =>
    rw [parse_milestones_lines_cons] at h
    by_cases hl : startsWithPy (pyLower l) "milestones:"
    · rw [if_pos hl] at h
      exact listPieces_all_ne_empty l s h
    · rw [if_neg hl] at h
      exact ih h

theorem parse_milestones_all_ne_empty (t s : String) (h : s ∈ parse_milestones t) :
    s ≠ "" :=
  parse_lines_all_ne_empty (splitlinesPy t) s h

theorem append_comma_ne_empty (c y : String) : c ++ ", " ++ y ≠ "" := by
  intro h
  have h2 := congrArg String.length h
  rw [String.length_append, String.length_append] at h2
  have h3 : (", ").length = 2 := rfl
  have h4 : ("" : String).length = 0 := rfl
  omega

theorem fixLoop_ne_nil (l : List String) : ∀ c, fixLoop c l ≠ [] := by
  induction l with
  | nil => intro c; simp [fixLoop]
  | cons y rest ih =>
    intro c
    rw [fixLoop]
    by_cases h : is_balanced c
    · rw [if_pos h]; simp
    · rw [if_neg h]; exact ih _

/-- On an all-balanced input the repair pass is the identity. -/
theorem fixLoop_balanced_id (l : List String) : ∀ c, is_balanced c = true →
    (∀ s ∈ l, is_balanced s = true) → fixLoop c l = c :: l := by
  induction l with
  | nil => intro c _ _; rfl
  | cons y rest ih =>
    intro c hc hl
    rw [fixLoop, if_pos hc,
      ih y (hl y (List.mem_cons_self _ _)) (fun s hs => hl s (List.mem_cons_of_mem _ hs))]

theorem fixLoop_all_ne_empty (l : List String) : ∀ c, c ≠ "" → (∀ s ∈ l, s ≠ "") →
    ∀ s ∈ fixLoop c l, s ≠ "" := by
  induction l with
  | nil =>
    intro c hc _ s hs
    rw [fixLoop, List.mem_singleton] at hs
    exact hs ▸ hc
  | cons y rest ih =>
    intro c hc hl s hs
    rw [fixLoop] at hs
    by_cases h : is_balanced c
    · rw [if_pos h] at hs
      rcases List.mem_cons.1 hs with h1 | h1
      · exact h1 ▸ hc
      · exact ih y (hl y (List.mem_cons_self _ _))
          (fun x hx => hl x (List.mem_cons_of_mem _ hx)) s h1
    · rw [if_neg h] at hs
      exact ih (c ++ ", " ++ y) (append_comma_ne_empty c y)
        (fun x hx => hl x (List.mem_cons_of_mem _ hx)) s hs

/-- Every emitted name except possibly the last one is balanced:
`combined` is appended as a non-final entry only when the `while`
condition found it balanced. -/
theorem fixLoop_dropLast_balanced (l : List String) : ∀ c,
    ∀ s ∈ (fixLoop c l).dropLast, is_balanced s = true := by
  induction l with
  | nil =>
    intro c s hs
    rw [fixLoop] at hs
    exact absurd hs (by simp)
  | cons y rest ih =>
    intro c s hs
    rw [fixLoop] at hs
    by_cases h : is_balanced c
    · rw [if_pos h] at hs
      obtain ⟨z, l2, hz⟩ := List.exists_cons_of_ne_nil (fixLoop_ne_nil rest y)
      rw [hz, List.dropLast_cons₂] at hs
      rcases List.mem_cons.1 hs with h1 | h1
      · exact h1 ▸ h
      · exact ih y s (hz ▸ h1)
    · rw [if_neg h] at hs
      exact ih (c ++ ", " ++ y) s hs

/-- The repair pass only re-groups entries: re-joining with `", "`
recovers exactly the join of the input. -/
theorem fixLoop_joinComma (l : List String) : ∀ c,
    joinComma (fixLoop c l) = joinComma (c :: l) := by
  induction l with
  | nil => intro c; rfl
  | cons y rest ih =>
    intro c
    rw [fixLoop]
    by_cases h : is_balanced c
    · rw [if_pos h]
      obtain ⟨z, l2, hz⟩ := List.exists_cons_of_ne_nil (fixLoop_ne_nil rest y)
      have ihy := ih y
      rw [hz] at ihy
      rw [hz]
      show c ++ ", " ++ joinComma (z :: l2) = c ++ ", " ++ joinComma (y :: rest)
      rw [ihy]
    · rw [if_neg h]
      rw [ih (c ++ ", " ++ y)]
      cases rest with
      | nil => rfl
      | cons z rest2 =>
        show (c ++ ", " ++ y) ++ ", " ++ joinComma (z :: rest2)
          = c ++ ", " ++ (y ++ ", " ++ joinComma (z :: rest2))
        simp [String.append_assoc]

/-! ## State-level lemmas for the detail stage -/

/-- Every dict stored in the detail cache is well-formed; Python dicts
cannot hold a key twice, so every reachable Python state satisfies
this. -/
def StWF (st : St) : Prop := ∀ e ∈ st.detailCache, WFDict e.2

theorem StWF_of_nil (st : St) (h : st.detailCache = []) : StWF st := by
  intro e he
  rw [h] at he
  exact absurd he (List.not_mem_nil e)

theorem gmdo_hit (gwD : Nat → String) (dp pn pd m : String) (st : St) (cached : Dict)
    (h : alookup st.detailCache (pn, pd, m, dp) = some cached) :
    generate_milestone_details_ollama gwD dp pn pd m st = (cached, st) := by
  unfold generate_milestone_details_ollama
  rw [h]

theorem gmdo_miss (gwD : Nat → String) (dp pn pd m : String) (st : St)
    (h : alookup st.detailCache (pn, pd, m, dp) = none) :
    generate_milestone_details_ollama gwD dp pn pd m st =
      (force_milestone (parse_details (pyStrip (gwD st.detailCalls))) m,
        ⟨st.listCache, st.listCalls,
          st.detailCache ++ [((pn, pd, m, dp),
            force_milestone (parse_details (pyStrip (gwD st.detailCalls))) m)],
          st.detailCalls + 1⟩) := by
  unfold generate_milestone_details_ollama
  rw [h]

theorem gmdo_spec (gwD : Nat → String) (dp pn pd m : String) (st : St) (hst : StWF st) :
    WFDict (generate_milestone_details_ollama gwD dp pn pd m st).1 ∧
    StWF (generate_milestone_details_ollama gwD dp pn pd m st).2 := by
  cases hc : alookup st.detailCache (pn, pd, m, dp) with
  | some cached =>
    rw [gmdo_hit gwD dp pn pd m st cached hc]
    exact ⟨hst ((pn, pd, m, dp), cached) (alookup_mem _ _ _ hc), hst⟩
  | none =>
    rw [gmdo_miss gwD dp pn pd m st hc]
    refine ⟨WFDict_force_milestone _ m (WFDict_parse_details _), ?_⟩
    intro e he
    rcases List.mem_append.1 he with h | h
    · exact hst e h
    · rw [List.mem_singleton.1 h]
      exact WFDict_force_milestone _ m (WFDict_parse_details _)

/-- A task row always carries its own milestone name, whatever the
cache held, and the task preserves the cache well-formedness. -/
theorem process_milestone_spec (gwD : Nat → String) (dp m pn pd : String) (st : St)
    (hst : StWF st) :
    alookup (process_milestone gwD dp m pn pd st).1 "Milestone" = some m ∧
    StWF (process_milestone gwD dp m pn pd st).2 := by
  obtain ⟨hwf, hst2⟩ := gmdo_spec gwD dp pn pd m st hst
  unfold process_milestone
  refine ⟨?_, hst2⟩
  apply alookup_updateAll_bound
  · intro p hp hpk
    exact dset_key_val_unique _ "Milestone" m hwf p hp hpk
  · exact ⟨("Milestone", m), self_mem_dset _ "Milestone" m, rfl⟩

/-- Positional collection: whatever the completion order, the result
tagged `i` satisfies the per-task guarantee for slot `i`, and the state
invariant survives the whole pool run. -/
theorem execInOrder_spec (f : Nat → St → Dict × St) (g : Nat → String)
    (hf : ∀ i s, StWF s →
      alookup (f i s).1 "Milestone" = some (g i) ∧ StWF (f i s).2) :
    ∀ (order : List Nat) (st : St), StWF st →
      StWF (execInOrder f order st).2 ∧
      ∀ i ∈ order, ∃ d, lookupIdx (execInOrder f order st).1 i = some d ∧
        alookup d "Milestone" = some (g i) := by
  intro order
  induction order with
  | nil => intro st hst; exact ⟨hst, by simp⟩
  | cons j rest ih =>
    intro st hst
    obtain ⟨hj, hstj⟩ := hf j st hst
    obtain ⟨hst2, hrest⟩ := ih (f j st).2 hstj
    refine ⟨hst2, ?_⟩
    intro i hi
    rw [execInOrder]
    by_cases hij : j = i
    · exact ⟨(f j st).1, by rw [lookupIdx, if_pos hij], hij ▸ hj⟩
    · rcases List.mem_cons.1 hi with h | h
      · exact absurd h.symm hij
      · obtain ⟨d, hd1, hd2⟩ := hrest i h
        exact ⟨d, by rw [lookupIdx, if_neg hij]; exact hd1, hd2⟩

/-! ## Remaining helper lemmas -/

theorem fix_all_ne_empty (l : List String) (h : ∀ s ∈ l, s ≠ "") :
    ∀ s ∈ fix_milestones l, s ≠ "" := by
  cases l with
  | nil => intro s hs; exact absurd hs (List.not_mem_nil s)
  | cons x rest =>
    exact fixLoop_all_ne_empty rest x (h x (List.mem_cons_self _ _))
      (fun s hs => h s (List.mem_cons_of_mem _ hs))

theorem fix_dropLast_balanced (l : List String) :
    ∀ s ∈ (fix_milestones l).dropLast, is_balanced s = true := by
  cases l with
  | nil => intro s hs; exact absurd hs (List.not_mem_nil s)
  | cons x rest => exact fixLoop_dropLast_balanced rest x

theorem run_model_fst (gwL gwD : Nat → String) (dp cd pn pd : String) (order : List Nat)
    (st : St) :
    (run_model gwL gwD dp cd pn pd order st).1
      = (List.range
          (fix_milestones (generate_project_milestones gwL dp cd pn pd st 0).1).length).map
          (fun i => (lookupIdx (execInOrder
            (fun j s => process_milestone gwD dp
              ((fix_milestones (generate_project_milestones gwL dp cd pn pd st 0).1).getD j "")
              pn pd s)
            order (generate_project_milestones gwL dp cd pn pd st 0).2).1 i).getD []) := rfl

/-! ## Claim theorems -/

/-- C1: the milestone-list extraction of `generate_project_milestones`
returns exactly the comma-separated pieces after the first colon of the
first line whose lowercasing starts with `"milestones:"` — each piece
stripped of surrounding whitespace, empty pieces discarded, order kept
— and the empty list when no line matches; in particular
`"Milestones: a, b, c"` yields `["a", "b", "c"]`. -/
theorem claim_list_first_match (text : String) :
    ((splitlinesPy text).find? (fun l => startsWithPy (pyLower l) "milestones:") = none →
      parse_milestones text = []) ∧
    (∀ line,
      (splitlinesPy text).find? (fun l => startsWithPy (pyLower l) "milestones:")
        = some line →
      parse_milestones text = listPieces line) ∧
    parse_milestones "Milestones: a, b, c" = ["a", "b", "c"] :=
  ⟨(parse_lines_find (splitlinesPy text)).1,
   (parse_lines_find (splitlinesPy text)).2, by decide⟩

/-- C1 witness: on a text whose first matching line is the second one,
the parse is the pieces of that line, not of the later match. -/
theorem claim_list_first_match_witness :
    parse_milestones "intro\nMILESTONES: one, two\nMilestones: three"
      = listPieces "MILESTONES: one, two" :=
  (claim_list_first_match "intro\nMILESTONES: one, two\nMilestones: three").2.1
    "MILESTONES: one, two" (by decide)

/-- C5: the normalizer walks left to right accumulating entries joined
by `", "` while the accumulator is unbalanced; on the round-trip
example the first two entries merge and the third stands alone, and on
any entry-wise balanced input the pass is the identity. -/
theorem claim_normalizer_merge (l : List String)
    (hbal : ∀ s ∈ l, is_balanced s = true) :
    fix_milestones l = l ∧
    fix_milestones ["Design (Phase 1", "continued)", "Testing"]
      = ["Design (Phase 1, continued)", "Testing"] := by
  constructor
  · cases l with
    | nil => rfl
    | cons x rest =>
      show fixLoop x rest = x :: rest
      exact fixLoop_balanced_id rest x (hbal x (List.mem_cons_self _ _))
        (fun s hs => hbal s (List.mem_cons_of_mem _ hs))
  · decide

/-- C5 witness: an already-balanced two-name list is returned
unchanged. -/
theorem claim_normalizer_merge_witness :
    fix_milestones ["alpha", "beta (x)"] = ["alpha", "beta (x)"] :=
  (claim_normalizer_merge ["alpha", "beta (x)"] (by decide)).1

/-- C10: the normalizer preserves content — joining its output with
`", "` equals joining its input with `", "`; entries are only
re-grouped, never dropped, duplicated, reordered or edited. -/
theorem claim_normalizer_content (l : List String) :
    joinComma (fix_milestones l) = joinComma l := by
  cases l with
  | nil => rfl
  | cons x rest =>
    show joinComma (fixLoop x rest) = joinComma (x :: rest)
    exact fixLoop_joinComma rest x

/-- C9: the detail parser records values only under the six expected
labels, matched exactly and case-sensitively against the trimmed key
before the first colon; any other colon-bearing line is discarded
without error, an expected label other than Milestone is present in
the record exactly when some reply line carries it (so absent fields
stay absent), keys outside the six never appear in the final record,
and the Milestone field alone is always present because it is
forced. -/
theorem claim_detail_field_policy (text m : String) :
    (∀ p ∈ parse_details text, p.1 ∈ expected_keys) ∧
    (∀ k, k ∈ expected_keys →
      (alookup (parse_details text) k ≠ none ↔
        ∃ line ∈ splitChar '\n' text, line.data.contains ':' = true ∧
          pyStrip (beforeFirstColon line) = k)) ∧
    (∀ k, k ∉ expected_keys →
      alookup (force_milestone (parse_details text) m) k = none) ∧
    (∀ k, k ∈ expected_keys → k ≠ "Milestone" →
      alookup (force_milestone (parse_details text) m) k
        = alookup (parse_details text) k) ∧
    alookup (force_milestone (parse_details text) m) "Milestone" = some m := by
  have hsub : ∀ p ∈ parse_details text, p.1 ∈ expected_keys := fun p hp =>
    (parse_fold_keys_sub (splitChar '\n' text) [] p hp).resolve_left (List.not_mem_nil p)
  refine ⟨hsub, ?_, ?_, ?_, force_milestone_self _ m⟩
  · intro k hk
    constructor
    · intro h
      rcases (parse_fold_lookup (splitChar '\n' text) [] k).1 h with h1 | ⟨line, hl, hc, hkey, -⟩
      · exact absurd rfl h1
      · exact ⟨line, hl, hc, hkey⟩
    · rintro ⟨line, hl, hc, hkey⟩
      exact (parse_fold_lookup (splitChar '\n' text) [] k).2
        (Or.inr ⟨line, hl, hc, hkey, hk⟩)
  · intro k hk
    have hkM : k ≠ "Milestone" := fun h => hk (h ▸ (by decide : "Milestone" ∈ expected_keys))
    rw [force_milestone_ne _ m k hkM]
    cases h : alookup (parse_details text) k with
    | none => rfl
    | some v => exact absurd (hsub (k, v) (alookup_mem _ _ _ h)) hk
  · intro k hk hkM
    exact force_milestone_ne _ m k hkM

/-- C9 witness: a reply with an unexpected `Owner: Alice` line yields a
record with no Owner field and no error. -/
theorem claim_detail_field_policy_witness :
    alookup (force_milestone (parse_details "Milestone: M\nOwner: Alice") "Testing")
      "Owner" = none :=
  (claim_detail_field_policy "Milestone: M\nOwner: Alice" "Testing").2.2.1
    "Owner" (by decide)

/-- C4: on a fresh cache key the record returned by
`generate_milestone_details_ollama` carries the input milestone name in
its Milestone field whatever the reply said (lines 164-167), and the
row built by `process_milestone` re-forces it (line 184) on any
well-formed state. -/
theorem claim_milestone_field_forced (gwD : Nat → String) (dp pn pd m : String) (st : St)
    (hfresh : alookup st.detailCache (pn, pd, m, dp) = none) :
    alookup (generate_milestone_details_ollama gwD dp pn pd m st).1 "Milestone"
      = some m ∧
    (StWF st →
      alookup (process_milestone gwD dp m pn pd st).1 "Milestone" = some m) := by
  constructor
  · rw [gmdo_miss gwD dp pn pd m st hfresh]
    exact force_milestone_self _ m
  · intro hst
    exact (process_milestone_spec gwD dp m pn pd st hst).1

/-- C4 witness: the reply `"Milestone: WrongName"` for the input name
`"Testing"` yields a record whose Milestone is `"Testing"`. -/
theorem claim_milestone_field_forced_witness :
    alookup (generate_milestone_details_ollama (fun _ => "Milestone: WrongName")
      "d" "p" "q" "Testing" ⟨[], 0, [], 0⟩).1 "Milestone" = some "Testing" :=
  (claim_milestone_field_forced (fun _ => "Milestone: WrongName") "d" "p" "q" "Testing"
    ⟨[], 0, [], 0⟩ (by decide)).1

/-- C2 counterexample: with replies that parse empty on the first three
list-stage calls and to `["a"]` on the fourth, the parse result is
empty on 3 consecutive attempts for the same inputs, yet the function
does not substitute the fallback: it makes a fourth gateway call and
returns `["a"]`. -/
theorem claim_retry_cex :
    parse_milestones (pyStrip (gwEmptyThrice 0)) = [] ∧
    parse_milestones (pyStrip (gwEmptyThrice 1)) = [] ∧
    parse_milestones (pyStrip (gwEmptyThrice 2)) = [] ∧
    (generate_project_milestones gwEmptyThrice "d" "c" "p" "q" ⟨[], 0, [], 0⟩ 0).1
      = ["a"] ∧
    (["a"] : List String) ≠ default_milestones := by
  refine ⟨by decide, by decide, by decide, ?_, by decide⟩
  rw [gen_step_empty gwEmptyThrice "d" "c" "p" "q" ⟨[], 0, [], 0⟩ 0
    (by decide) (by decide) (by decide)]
  show (generate_project_milestones gwEmptyThrice "d" "c" "p" "q" (⟨[], 1, [], 0⟩ : St) 1).1
    = ["a"]
  rw [gen_step_empty gwEmptyThrice "d" "c" "p" "q" ⟨[], 1, [], 0⟩ 1
    (by decide) (by decide) (by decide)]
  show (generate_project_milestones gwEmptyThrice "d" "c" "p" "q" (⟨[], 2, [], 0⟩ : St) 2).1
    = ["a"]
  rw [gen_step_empty gwEmptyThrice "d" "c" "p" "q" ⟨[], 2, [], 0⟩ 2
    (by decide) (by decide) (by decide)]
  show (generate_project_milestones gwEmptyThrice "d" "c" "p" "q" (⟨[], 3, [], 0⟩ : St) 3).1
    = ["a"]
  rw [gen_step_success gwEmptyThrice "d" "c" "p" "q" ⟨[], 3, [], 0⟩ 3
    (by decide) (by decide)]
  decide

/-- C2 amended: when the parse result is empty on four consecutive
attempts — the initial call plus the three retries allowed by the
`attempts < 3` guard — for the same fresh inputs,
`generate_project_milestones` does not raise: it substitutes exactly
the fixed hardcoded 9-name canonical sequence and returns it. -/
theorem claim_fallback_after_four (gw : Nat → String) (dp cd pn pd : String) (st : St)
    (hfresh : alookup st.listCache (cd, pn, pd, dp) = none)
    (hempty : ∀ i, st.listCalls ≤ i → i < st.listCalls + 4 →
      parse_milestones (pyStrip (gw i)) = []) :
    (generate_project_milestones gw dp cd pn pd st 0).1 = default_milestones := by
  obtain ⟨-, -, -, -, -, -, -, h8⟩ :=
    gen_helper gw dp cd pn pd 4 0 st _ _ (by omega) hfresh rfl
  exact h8 (fun i h1 h2 => hempty i h1 (by omega))

/-- C2 witness: replies that never contain a milestones line drive the
stage into the 9-name fallback. -/
theorem claim_fallback_after_four_witness :
    (generate_project_milestones (fun _ => "no label") "d" "c" "p" "q"
      ⟨[], 0, [], 0⟩ 0).1 = default_milestones :=
  claim_fallback_after_four (fun _ => "no label") "d" "c" "p" "q" ⟨[], 0, [], 0⟩
    (by decide)
    (fun i h1 h2 => (by decide : parse_milestones (pyStrip "no label") = []))

/-- C8: the list stage always terminates — its retry recursion is
bounded by the `attempts < 3` guard, which also makes the embedding
total by well-founded recursion on `3 - attempts` — and on a fresh
cache key it returns a non-empty list that is either a non-empty parse
of one of the consumed replies or the 9-name fallback. -/
theorem claim_list_stage_total_nonempty (gw : Nat → String) (dp cd pn pd : String)
    (st : St) (a : Nat) (hfresh : alookup st.listCache (cd, pn, pd, dp) = none) :
    (generate_project_milestones gw dp cd pn pd st a).1 ≠ [] ∧
    ((generate_project_milestones gw dp cd pn pd st a).1 = default_milestones ∨
      ∃ i, (generate_project_milestones gw dp cd pn pd st a).1
        = parse_milestones (pyStrip (gw i))) := by
  obtain ⟨-, -, -, -, -, h6, h7, -⟩ :=
    gen_helper gw dp cd pn pd 4 a st _ _ (by omega) hfresh rfl
  refine ⟨h6, ?_⟩
  rcases h7 with h | ⟨i, -, -, h⟩
  · exact Or.inl h
  · exact Or.inr ⟨i, h⟩

/-- C8 witness: a run over a concrete oracle returns a non-empty
list. -/
theorem claim_list_stage_total_nonempty_witness :
    (generate_project_milestones gwEmptyOnce "d" "c" "p" "q" ⟨[], 0, [], 0⟩ 0).1 ≠ [] :=
  (claim_list_stage_total_nonempty gwEmptyOnce "d" "c" "p" "q" ⟨[], 0, [], 0⟩ 0
    (by decide)).1

/-- C7 counterexample: with a first reply that parses empty and a
second that parses to `["a"]`, already the first invocation of the
list stage for one input tuple makes two gateway calls (`listCalls`
counts them), refuting that two invocations with identical inputs
invoke the gateway at most once. -/
theorem claim_cache_cex :
    (generate_project_milestones gwEmptyOnce "d" "c" "p" "q" ⟨[], 0, [], 0⟩ 0).2.listCalls
      = 2 := by
  rw [gen_step_empty gwEmptyOnce "d" "c" "p" "q" ⟨[], 0, [], 0⟩ 0
    (by decide) (by decide) (by decide)]
  show (generate_project_milestones gwEmptyOnce "d" "c" "p" "q"
    (⟨[], 1, [], 0⟩ : St) 1).2.listCalls = 2
  rw [gen_step_success gwEmptyOnce "d" "c" "p" "q" ⟨[], 1, [], 0⟩ 1
    (by decide) (by decide)]

/-- C7 amended: all gateway calls happen during the first invocation —
between one and four of them, depending on retries; the first
invocation stores its result under the full input tuple, and a second
invocation with identical inputs returns the stored value from the
cache with no further gateway call and no state change. -/
theorem claim_cache_idempotent (gw : Nat → String) (dp cd pn pd : String) (st : St)
    (hfresh : alookup st.listCache (cd, pn, pd, dp) = none) :
    alookup (generate_project_milestones gw dp cd pn pd st 0).2.listCache (cd, pn, pd, dp)
      = some (generate_project_milestones gw dp cd pn pd st 0).1 ∧
    generate_project_milestones gw dp cd pn pd
        (generate_project_milestones gw dp cd pn pd st 0).2 0
      = ((generate_project_milestones gw dp cd pn pd st 0).1,
         (generate_project_milestones gw dp cd pn pd st 0).2) ∧
    st.listCalls + 1 ≤ (generate_project_milestones gw dp cd pn pd st 0).2.listCalls ∧
    (generate_project_milestones gw dp cd pn pd st 0).2.listCalls ≤ st.listCalls + 4 := by
  obtain ⟨h1, h2, h3, -, -, -, -, -⟩ :=
    gen_helper gw dp cd pn pd 4 0 st _ _ (by omega) hfresh rfl
  have hstore : alookup (generate_project_milestones gw dp cd pn pd st 0).2.listCache
      (cd, pn, pd, dp) = some (generate_project_milestones gw dp cd pn pd st 0).1 := by
    rw [h1]
    exact alookup_append_fresh _ _ _ hfresh
  exact ⟨hstore, gen_step_hit gw dp cd pn pd _ 0 _ hstore, h2, by omega⟩

/-- C7 witness: a concrete second call is served entirely from the
cache, returning the stored list and leaving the state unchanged. -/
theorem claim_cache_idempotent_witness :
    generate_project_milestones gwBA "d" "c" "p" "q"
        (generate_project_milestones gwBA "d" "c" "p" "q" ⟨[], 0, [], 0⟩ 0).2 0
      = ((generate_project_milestones gwBA "d" "c" "p" "q" ⟨[], 0, [], 0⟩ 0).1,
         (generate_project_milestones gwBA "d" "c" "p" "q" ⟨[], 0, [], 0⟩ 0).2) :=
  (claim_cache_idempotent gwBA "d" "c" "p" "q" ⟨[], 0, [], 0⟩ (by decide)).2.1

/-- C6 counterexample: the reply `"Milestones: a, a, (b"` parses and
normalizes to `["a", "a", "(b"]`: its names are neither pairwise
distinct nor all balanced, refuting two of the three claimed
invariants. -/
theorem claim_name_invariant_cex :
    fix_milestones
        (generate_project_milestones gwDup "d" "c" "p" "q" ⟨[], 0, [], 0⟩ 0).1
      = ["a", "a", "(b"] ∧
    ¬ (["a", "a", "(b"] : List String).Nodup ∧
    ¬ ∀ s ∈ (["a", "a", "(b"] : List String), is_balanced s = true := by
  refine ⟨?_, by decide, by decide⟩
  rw [gen_step_success gwDup "d" "c" "p" "q" ⟨[], 0, [], 0⟩ 0 (by decide) (by decide)]
  decide

/-- C6 amended: within one generation from a fresh cache key, every
name in the normalized list is a non-empty string, and every name
except possibly the last is balanced; pairwise distinctness and
balancedness of the final name are not guaranteed by the code. -/
theorem claim_name_invariant (gw : Nat → String) (dp cd pn pd : String) (st : St)
    (hfresh : alookup st.listCache (cd, pn, pd, dp) = none) :
    (∀ s ∈ fix_milestones (generate_project_milestones gw dp cd pn pd st 0).1,
      s ≠ "") ∧
    (∀ s ∈ (fix_milestones
        (generate_project_milestones gw dp cd pn pd st 0).1).dropLast,
      is_balanced s = true) := by
  obtain ⟨-, -, -, -, -, -, h7, -⟩ :=
    gen_helper gw dp cd pn pd 4 0 st _ _ (by omega) hfresh rfl
  refine ⟨fix_all_ne_empty _ ?_, fix_dropLast_balanced _⟩
  rcases h7 with h | ⟨i, -, -, h⟩
  · rw [h]; decide
  · rw [h]
    exact fun s hs => parse_milestones_all_ne_empty _ s hs

/-- C6 witness: on a concrete run the first normalized name is
non-empty and, not being last, balanced. -/
theorem claim_name_invariant_witness :
    ("b" : String) ≠ "" ∧ is_balanced "b" = true := by
  have hgen : (generate_project_milestones gwBA "d" "c" "p" "q" ⟨[], 0, [], 0⟩ 0).1
      = ["b", "a"] := by
    rw [gen_step_success gwBA "d" "c" "p" "q" ⟨[], 0, [], 0⟩ 0 (by decide) (by decide)]
    decide
  have h := claim_name_invariant gwBA "d" "c" "p" "q" ⟨[], 0, [], 0⟩ (by decide)
  rw [hgen] at h
  exact ⟨h.1 "b" (by decide), h.2 "b" (by decide)⟩

/-- C3: for every completion schedule that is a permutation of the task
indices, `run_model` returns exactly one row per normalized name and in
input order: the row in slot i carries the i-th normalized name in its
Milestone field, regardless of the order in which the concurrent
detail tasks complete. -/
theorem claim_run_model_order (gwL gwD : Nat → String) (dp cd pn pd : String)
    (order : List Nat) (st : St) (hst : StWF st)
    (hperm : order.Perm (List.range
      (fix_milestones (generate_project_milestones gwL dp cd pn pd st 0).1).length)) :
    (run_model gwL gwD dp cd pn pd order st).1.length
      = (fix_milestones (generate_project_milestones gwL dp cd pn pd st 0).1).length ∧
    ∀ i, i < (fix_milestones
        (generate_project_milestones gwL dp cd pn pd st 0).1).length →
      alookup ((run_model gwL gwD dp cd pn pd order st).1.getD i []) "Milestone"
        = some ((fix_milestones
            (generate_project_milestones gwL dp cd pn pd st 0).1).getD i "") := by
  have hst1 : StWF (generate_project_milestones gwL dp cd pn pd st 0).2 := by
    intro e he
    rw [(gen_detail_unchanged gwL dp cd pn pd 0 st).1] at he
    exact hst e he
  obtain ⟨-, hlook⟩ := execInOrder_spec
    (fun j s => process_milestone gwD dp
      ((fix_milestones (generate_project_milestones gwL dp cd pn pd st 0).1).getD j "")
      pn pd s)
    (fun j => (fix_milestones (generate_project_milestones gwL dp cd pn pd st 0).1).getD j "")
    (fun j s hs => process_milestone_spec gwD dp _ pn pd s hs)
    order (generate_project_milestones gwL dp cd pn pd st 0).2 hst1
  rw [run_model_fst gwL gwD dp cd pn pd order st]
  constructor
  · rw [List.length_map, List.length_range]
  · intro i hi
    obtain ⟨d, hd1, hd2⟩ := hlook i (hperm.mem_iff.2 (List.mem_range.2 hi))
    rw [List.getD_eq_getElem?_getD, List.getElem?_map, List.getElem?_range hi]
    show alookup ((lookupIdx _ i).getD []) "Milestone" = _
    rw [hd1]
    exact hd2

/-- C3 witness: with the two names `["b", "a"]` and the reversed
completion schedule `[1, 0]`, the output row in slot 1 still carries
the name `"a"`. -/
theorem claim_run_model_order_witness :
    alookup ((run_model gwBA gwTask "d" "c" "p" "q" [1, 0] ⟨[], 0, [], 0⟩).1.getD 1 [])
      "Milestone" = some "a" := by
  have hgen : (generate_project_milestones gwBA "d" "c" "p" "q" ⟨[], 0, [], 0⟩ 0).1
      = ["b", "a"] := by
    rw [gen_step_success gwBA "d" "c" "p" "q" ⟨[], 0, [], 0⟩ 0 (by decide) (by decide)]
    decide
  have h := (claim_run_model_order gwBA gwTask "d" "c" "p" "q" [1, 0] ⟨[], 0, [], 0⟩
    (StWF_of_nil _ rfl) (by rw [hgen]; decide)).2 1 (by rw [hgen]; decide)
  rw [hgen] at h
  exact h.trans (by decide)
